import Mathlib

/-!
Verification of the Terraform resource/module extraction core of this
repository (`terraform_parser_openai.py`).

The extraction is a pair of regex passes over the text of one file:

* pass A, `resource\s+"([^"]+)"\s+"([^"]+)"`, yielding RESOURCE records;
* pass B, `module\s+"([^"]+)"\s+\x7b[^\x7d]*source\s+=\s+"([^"]+)"`,
  yielding MODULE records, whose `resource_type` is the second-to-last
  `/`-separated component of the captured source (or the raw source when
  it has fewer than two components).

Both passes use `re.finditer` semantics: scan positions left to right,
take the leftmost match, continue after the end of each match
(non-overlapping).  The regexes are embedded as deterministic scanners:
each `\s+` or `[^X]+` item is a maximal nonempty run followed by the
required literal (equivalent to the backtracking semantics, because a
shorter run would leave a run character, never the required literal, at
the front), and the single genuinely backtracking item, the greedy
`[^\x7d]*` of pass B, is embedded by trying every split point from the
largest down (`bestSourceFrom`).

File reading is modelled by passing the file content as `Option String`
(`none` = the read raised, which the source catches per file, printing
a message and returning the empty record list).
-/

namespace TfParse

/-- ASCII whitespace matched by the regex class backslash-s
    (space, tab, newline, carriage return, vertical tab, form feed). -/
def isPySpace (c : Char) : Bool :=
  c = ' ' || c = '\t' || c = '\n' || c = '\r' || c = '\x0b' || c = '\x0c'

/-- Consume an exact literal at the head of the input; on success return the rest. -/
def dropLit : List Char → List Char → Option (List Char)
  | [], s => some s
  | _ :: _, [] => none
  | p :: ps, c :: cs => if p = c then dropLit ps cs else none

/-- Consume a maximal nonempty run of characters satisfying `p`
    (a greedy `X+` regex item followed by a literal outside the class `X`). -/
def run1 (p : Char → Bool) (s : List Char) : Option (List Char × List Char) :=
  if s.takeWhile p = [] then none else some (s.takeWhile p, s.dropWhile p)

/-- Consume one exact character. -/
def chr (c : Char) : List Char → Option (List Char)
  | x :: rest => if x = c then some rest else none
  | [] => none

/-- Match `resource\s+"([^"]+)"\s+"([^"]+)"` at the head of the input.
    Returns the two capture groups and the input remaining after the match. -/
def matchResourceAt (s : List Char) : Option (List Char × List Char × List Char) := do
  let s1 ← dropLit "resource".data s
  let r2 ← run1 isPySpace s1
  let s3 ← chr '"' r2.2
  let r4 ← run1 (fun c => c != '"') s3
  let s5 ← chr '"' r4.2
  let r6 ← run1 isPySpace s5
  let s7 ← chr '"' r6.2
  let r8 ← run1 (fun c => c != '"') s7
  let s9 ← chr '"' r8.2
  pure (r4.1, r8.1, s9)

/-- Match the tail `source\s+=\s+"([^"]+)"` of the module pattern at the
    head of the input.  Returns the capture group and the remaining input. -/
def matchSourceTail (u : List Char) : Option (List Char × List Char) := do
  let u1 ← dropLit "source".data u
  let r2 ← run1 isPySpace u1
  let u3 ← chr '=' r2.2
  let r4 ← run1 isPySpace u3
  let u5 ← chr '"' r4.2
  let r6 ← run1 (fun c => c != '"') u5
  let u7 ← chr '"' r6.2
  pure (r6.1, u7)

/-- Greedy `[^\x7d]*` followed by the source tail: try every number of
    consumed characters from `k` (the largest allowed by the class) down
    to `0`, and keep the first success, exactly as regex backtracking does. -/
def bestSourceFrom : Nat → List Char → Option (List Char × List Char)
  | 0, l => matchSourceTail l
  | k + 1, l =>
    match matchSourceTail (l.drop (k + 1)) with
    | some r => some r
    | none => bestSourceFrom k l

/-- Match `module\s+"([^"]+)"\s+\x7b[^\x7d]*source\s+=\s+"([^"]+)"` at the
    head of the input.  Returns the module name, the captured source and
    the input remaining after the match. -/
def matchModuleAt (s : List Char) : Option (List Char × List Char × List Char) := do
  let s1 ← dropLit "module".data s
  let r2 ← run1 isPySpace s1
  let s3 ← chr '"' r2.2
  let r4 ← run1 (fun c => c != '"') s3
  let s5 ← chr '"' r4.2
  let r6 ← run1 isPySpace s5
  let s7 ← chr '\x7b' r6.2
  let r8 ← bestSourceFrom ((s7.takeWhile (fun c => c != '\x7d')).length) s7
  pure (r4.1, r8.1, r8.2)

/-- `re.finditer` for the resource pattern: scan left to right, emit each
    leftmost match and continue after its end.  The fuel starts at the
    length of the input and every step consumes at least one character,
    so it never runs out. -/
def scanResourcesAux : Nat → List Char → List (List Char × List Char)
  | 0, _ => []
  | _ + 1, [] => []
  | fuel + 1, c :: cs =>
    match matchResourceAt (c :: cs) with
    | some (t, n, after) => (t, n) :: scanResourcesAux fuel after
    | none => scanResourcesAux fuel cs

/-- All matches of the resource pattern, in order. -/
def scanResources (s : List Char) : List (List Char × List Char) :=
  scanResourcesAux s.length s

/-- `re.finditer` for the module pattern. -/
def scanModulesAux : Nat → List Char → List (List Char × List Char)
  | 0, _ => []
  | _ + 1, [] => []
  | fuel + 1, c :: cs =>
    match matchModuleAt (c :: cs) with
    | some (nm, src, after) => (nm, src) :: scanModulesAux fuel after
    | none => scanModulesAux fuel cs

/-- All matches of the module pattern, in order. -/
def scanModules (s : List Char) : List (List Char × List Char) :=
  scanModulesAux s.length s

/-- Python `str.split('/')`: the list of `/`-separated components,
    keeping empty components, never empty (splitting "" gives [""]). -/
def splitOnSlash : List Char → List (List Char)
  | [] => [[]]
  | c :: cs =>
    match splitOnSlash cs with
    | [] => [[]]
    | g :: gs => if c = '/' then [] :: g :: gs else (c :: g) :: gs

/-- Module-source normalization (lines 69-70 of the source):
    `source_parts = module_source.split('/')`;
    `module_type = source_parts[-2] if len(source_parts) >= 2 else module_source`. -/
def moduleTypeOf (module_source : List Char) : List Char :=
  let source_parts := splitOnSlash module_source
  if 2 ≤ source_parts.length then source_parts.getD (source_parts.length - 2) []
  else module_source

/-- The `TerraformResource` pydantic model. -/
structure TerraformResource where
  resource_type : String
  resource_name : String
  resource_id : String
  file_path : String
  is_module : Bool
  module_source : Option String
deriving DecidableEq, Repr

/-- One RESOURCE record, as built in the pass-A loop of the source:
    `resource_id = f"{resource_type}.{resource_name}"`, `is_module=False`. -/
def mkResourceRecord (file_path : String) (g : List Char × List Char) : TerraformResource :=
  { resource_type := String.mk g.1
    resource_name := String.mk g.2
    resource_id := String.mk g.1 ++ "." ++ String.mk g.2
    file_path := file_path
    is_module := false
    module_source := none }

/-- One MODULE record, as built in the pass-B loop of the source:
    `resource_type` is the normalized source, `resource_id = f"module.{module_name}"`,
    `is_module=True`, `module_source` the raw captured source. -/
def mkModuleRecord (file_path : String) (g : List Char × List Char) : TerraformResource :=
  { resource_type := String.mk (moduleTypeOf g.2)
    resource_name := String.mk g.1
    resource_id := "module." ++ String.mk g.1
    file_path := file_path
    is_module := true
    module_source := some (String.mk g.2) }

/-- `TerraformParser.parse_terraform_file`.  The file system is modelled by
    the `content` argument: `none` means the read raised, which the source
    catches, prints, and turns into the empty record list.  On a successful
    read the result is all pass-A records followed by all pass-B records. -/
def parse_terraform_file (file_path : String) (content : Option String) :
    List TerraformResource :=
  match content with
  | none => []
  | some text =>
    ((scanResources text.data).map (mkResourceRecord file_path))
      ++ ((scanModules text.data).map (mkModuleRecord file_path))

/-- The aggregation loop of `analyze_terraform_project`: parse every
    discovered file and concatenate the record lists in order.  A directory
    is modelled as the list of (path, content) pairs the glob found. -/
def all_resources (files : List (String × Option String)) : List TerraformResource :=
  (files.map (fun f => parse_terraform_file f.1 f.2)).flatten

/-- The count stored in the `resource_types` dict for a given type name:
    the number of records (resources and modules together) with that
    `resource_type`. -/
def count_by_type (files : List (String × Option String)) (t : String) : Nat :=
  ((all_resources files).filter (fun r => r.resource_type = t)).length

/-- The key set of the `resource_types` dict, in insertion order
    (first occurrence of each `resource_type`). -/
def dedupKeepFirst (l : List String) : List String :=
  l.foldl (fun acc x => if x ∈ acc then acc else acc ++ [x]) []

/-- The keys of `resource_types`, in insertion order. -/
def resource_types_keys (files : List (String × Option String)) : List String :=
  dedupKeepFirst ((all_resources files).map (fun r => r.resource_type))

/-- The value returned by `analyze_terraform_project`:
    `list(set(r.resource_type for r in resources))`.  Python set order is
    unspecified, so the model fixes first-occurrence order; claims about it
    are claims about the underlying set. -/
def unique_resource_types (files : List (String × Option String)) : List String :=
  dedupKeepFirst ((all_resources files).map (fun r => r.resource_type))

/-- The text `resource "T" "N"` followed by `body` (the canonical well-formed
    resource declaration; the brace block that follows in real input is part
    of `body`, which the pattern never inspects). -/
def resourceDecl (T N body : List Char) : List Char :=
  "resource \"".data ++ T ++ "\" \"".data ++ N ++ "\"".data ++ body

/-- The text `module "N" \x7b source = "S" \x7d`: the canonical well-formed
    module declaration, with the single-space layout the module pattern
    requires around the `source` assignment. -/
def moduleDecl (N S : List Char) : List Char :=
  "module \"".data ++ N ++ "\" \x7b source = \"".data ++ S ++ "\" \x7d".data

/-- The text `resource "T"` followed by `rest`: the keyword plus one quoted
    token, with the second quoted token missing whenever `rest` contains no
    double quote. -/
def resourceMalformed (T rest : List Char) : List Char :=
  "resource \"".data ++ T ++ "\"".data ++ rest

/-- The text `module "N" \x7b source="S" \x7d`: a module declaration written
    without whitespace between `source`, `=` and the opening quote. -/
def moduleDeclNoWs (N S : List Char) : List Char :=
  "module \"".data ++ N ++ "\" \x7b source=\"".data ++ S ++ "\" \x7d".data

/-- The two-file project of the end-to-end aggregation scenario. -/
def exampleProjectFiles : List (String × Option String) :=
  [("f1.tf", some ("resource \"aws_s3_bucket\" \"logs\" \x7b\x7d\n"
      ++ "module \"vpc\" \x7b\n  source = \"terraform-aws-modules/vpc/aws\"\n\x7d")),
   ("f2.tf", some "resource \"aws_s3_bucket\" \"data\" \x7b\x7d")]

theorem dropLit_self_append (pre rest : List Char) : dropLit pre (pre ++ rest) = some rest := by
  induction pre with
  | nil => rfl
  | cons p ps ih => simp [dropLit, ih]

theorem dropLit_pre_of_some {pre s r : List Char} (h : dropLit pre s = some r) : pre <+: s := by
  induction pre generalizing s with
  | nil => exact List.nil_prefix
  | cons p ps ih =>
    cases s with
    | nil => exact absurd h (by simp [dropLit])
    | cons c cs =>
      by_cases he : p = c
      · subst he
        simp only [dropLit, if_pos rfl] at h
        exact List.cons_prefix_cons.mpr ⟨rfl, ih h⟩
      · simp [dropLit, he] at h

theorem dropLit_length {pre s r : List Char} (h : dropLit pre s = some r) :
    r.length + pre.length = s.length := by
  induction pre generalizing s with
  | nil =>
    simp only [dropLit, Option.some.injEq] at h
    simp [← h]
  | cons p ps ih =>
    cases s with
    | nil => exact absurd h (by simp [dropLit])
    | cons c cs =>
      by_cases he : p = c
      · subst he
        simp only [dropLit, if_pos rfl] at h
        have := ih h
        simp only [List.length_cons]
        omega
      · simp [dropLit, he] at h

theorem run1_eq_some {p : Char → Bool} {s r rest : List Char}
    (h : run1 p s = some (r, rest)) :
    r = s.takeWhile p ∧ rest = s.dropWhile p ∧ r ≠ [] := by
  by_cases hne : s.takeWhile p = []
  · simp [run1, hne] at h
  · simp only [run1, if_neg hne, Option.some.injEq, Prod.mk.injEq] at h
    exact ⟨h.1.symm, h.2.symm, h.1 ▸ hne⟩

theorem run1_length {p : Char → Bool} {s r rest : List Char}
    (h : run1 p s = some (r, rest)) : rest.length < s.length := by
  obtain ⟨hr, hrest, hne⟩ := run1_eq_some h
  subst hr
  subst hrest
  have hsum : (s.takeWhile p).length + (s.dropWhile p).length = s.length := by
    rw [← List.length_append, List.takeWhile_append_dropWhile]
  have hpos : 0 < (s.takeWhile p).length := List.length_pos.mpr hne
  omega

theorem chr_eq_some {c : Char} {s rest : List Char} (h : chr c s = some rest) :
    s = c :: rest := by
  cases s with
  | nil => exact absurd h (by simp [chr])
  | cons x cs =>
    simp only [chr, Option.ite_none_right_eq_some, Option.some.injEq] at h
    rw [h.1, h.2]

theorem chr_length {c : Char} {s rest : List Char} (h : chr c s = some rest) :
    rest.length < s.length := by
  rw [chr_eq_some h]
  simp

theorem matchResourceAt_bind_eq {s : List Char} {v : List Char × List Char × List Char}
    (h : matchResourceAt s = some v) :
    ∃ s1 r2 s3 r4 s5 r6 s7 r8 s9,
      dropLit "resource".data s = some s1 ∧
      run1 isPySpace s1 = some r2 ∧
      chr '"' r2.2 = some s3 ∧
      run1 (fun c => c != '"') s3 = some r4 ∧
      chr '"' r4.2 = some s5 ∧
      run1 isPySpace s5 = some r6 ∧
      chr '"' r6.2 = some s7 ∧
      run1 (fun c => c != '"') s7 = some r8 ∧
      chr '"' r8.2 = some s9 ∧
      v = (r4.1, r8.1, s9) := by
  simp only [matchResourceAt, Option.bind_eq_bind, Option.bind_eq_some, Option.pure_def, Option.some.injEq] at h
  obtain ⟨s1, h1, r2, h2, s3, h3, r4, h4, s5, h5, r6, h6, s7, h7, r8, h8, s9, h9, hv⟩ := h
  exact ⟨s1, r2, s3, r4, s5, r6, s7, r8, s9, h1, h2, h3, h4, h5, h6, h7, h8, h9, hv.symm⟩

theorem matchResourceAt_length {s : List Char} {t n after : List Char}
    (h : matchResourceAt s = some (t, n, after)) : after.length < s.length := by
  obtain ⟨s1, r2, s3, r4, s5, r6, s7, r8, s9, h1, h2, h3, h4, h5, h6, h7, h8, h9, hv⟩ :=
    matchResourceAt_bind_eq h
  have l1 := dropLit_length h1
  have l2 := run1_length h2
  have l3 := chr_length h3
  have l4 := run1_length h4
  have l5 := chr_length h5
  have l6 := run1_length h6
  have l7 := chr_length h7
  have l8 := run1_length h8
  have l9 := chr_length h9
  simp only [Prod.mk.injEq] at hv
  obtain ⟨-, -, hafter⟩ := hv
  subst hafter
  omega

theorem matchSourceTail_bind_eq {u : List Char} {v : List Char × List Char}
    (h : matchSourceTail u = some v) :
    ∃ u1 r2 u3 r4 u5 r6 u7,
      dropLit "source".data u = some u1 ∧
      run1 isPySpace u1 = some r2 ∧
      chr '=' r2.2 = some u3 ∧
      run1 isPySpace u3 = some r4 ∧
      chr '"' r4.2 = some u5 ∧
      run1 (fun c => c != '"') u5 = some r6 ∧
      chr '"' r6.2 = some u7 ∧
      v = (r6.1, u7) := by
  simp only [matchSourceTail, Option.bind_eq_bind, Option.bind_eq_some, Option.pure_def, Option.some.injEq] at h
  obtain ⟨u1, h1, r2, h2, u3, h3, r4, h4, u5, h5, r6, h6, u7, h7, hv⟩ := h
  exact ⟨u1, r2, u3, r4, u5, r6, u7, h1, h2, h3, h4, h5, h6, h7, hv.symm⟩

theorem matchSourceTail_length {u : List Char} {src rest : List Char}
    (h : matchSourceTail u = some (src, rest)) : rest.length < u.length := by
  obtain ⟨u1, r2, u3, r4, u5, r6, u7, h1, h2, h3, h4, h5, h6, h7, hv⟩ :=
    matchSourceTail_bind_eq h
  have l1 := dropLit_length h1
  have l2 := run1_length h2
  have l3 := chr_length h3
  have l4 := run1_length h4
  have l5 := chr_length h5
  have l6 := run1_length h6
  have l7 := chr_length h7
  simp only [Prod.mk.injEq] at hv
  obtain ⟨-, hrest⟩ := hv
  subst hrest
  omega

theorem bestSourceFrom_exists_drop {k : Nat} {l : List Char} {v : List Char × List Char}
    (h : bestSourceFrom k l = some v) :
    ∃ j, j ≤ k ∧ matchSourceTail (l.drop j) = some v := by
  induction k with
  | zero => exact ⟨0, Nat.le_refl 0, by simpa using h⟩
  | succ k ih =>
    simp only [bestSourceFrom] at h
    cases hm : matchSourceTail (l.drop (k + 1)) with
    | some r => rw [hm] at h; exact ⟨k + 1, Nat.le_refl _, by simpa [hm] using h⟩
    | none =>
      rw [hm] at h
      obtain ⟨j, hj, hmt⟩ := ih h
      exact ⟨j, Nat.le_succ_of_le hj, hmt⟩

theorem bestSourceFrom_length {k : Nat} {l : List Char} {src rest : List Char}
    (h : bestSourceFrom k l = some (src, rest)) : rest.length < l.length := by
  obtain ⟨j, _, hmt⟩ := bestSourceFrom_exists_drop h
  have h1 := matchSourceTail_length hmt
  have h2 : (l.drop j).length ≤ l.length := by simp
  omega

theorem matchModuleAt_bind_eq {s : List Char} {v : List Char × List Char × List Char}
    (h : matchModuleAt s = some v) :
    ∃ s1 r2 s3 r4 s5 r6 s7 r8,
      dropLit "module".data s = some s1 ∧
      run1 isPySpace s1 = some r2 ∧
      chr '"' r2.2 = some s3 ∧
      run1 (fun c => c != '"') s3 = some r4 ∧
      chr '"' r4.2 = some s5 ∧
      run1 isPySpace s5 = some r6 ∧
      chr '\x7b' r6.2 = some s7 ∧
      bestSourceFrom ((s7.takeWhile (fun c => c != '\x7d')).length) s7 = some r8 ∧
      v = (r4.1, r8.1, r8.2) := by
  simp only [matchModuleAt, Option.bind_eq_bind, Option.bind_eq_some, Option.pure_def, Option.some.injEq] at h
  obtain ⟨s1, h1, r2, h2, s3, h3, r4, h4, s5, h5, r6, h6, s7, h7, r8, h8, hv⟩ := h
  exact ⟨s1, r2, s3, r4, s5, r6, s7, r8, h1, h2, h3, h4, h5, h6, h7, h8, hv.symm⟩

theorem matchModuleAt_length {s : List Char} {nm src after : List Char}
    (h : matchModuleAt s = some (nm, src, after)) : after.length < s.length := by
  obtain ⟨s1, r2, s3, r4, s5, r6, s7, r8, h1, h2, h3, h4, h5, h6, h7, h8, hv⟩ :=
    matchModuleAt_bind_eq h
  have l1 := dropLit_length h1
  have l2 := run1_length h2
  have l3 := chr_length h3
  have l4 := run1_length h4
  have l5 := chr_length h5
  have l6 := run1_length h6
  have l7 := chr_length h7
  have l8 : r8.2.length < s7.length := by
    obtain ⟨a, b⟩ := r8
    exact bestSourceFrom_length h8
  simp only [Prod.mk.injEq] at hv
  obtain ⟨-, -, hafter⟩ := hv
  subst hafter
  omega

theorem scanResourcesAux_nil : ∀ fuel, scanResourcesAux fuel [] = [] := by
  intro fuel
  cases fuel with
  | zero => rfl
  | succ f => rfl

theorem scanModulesAux_nil : ∀ fuel, scanModulesAux fuel [] = [] := by
  intro fuel
  cases fuel with
  | zero => rfl
  | succ f => rfl

theorem scanResourcesAux_mono :
    ∀ (fuel fuel' : Nat) (s : List Char), s.length ≤ fuel → s.length ≤ fuel' →
      scanResourcesAux fuel s = scanResourcesAux fuel' s := by
  intro fuel
  induction fuel with
  | zero =>
    intro fuel' s h h'
    have : s = [] := List.length_eq_zero.mp (Nat.le_zero.mp h)
    subst this
    rw [scanResourcesAux_nil, scanResourcesAux_nil]
  | succ fuel ih =>
    intro fuel' s h h'
    cases s with
    | nil => rw [scanResourcesAux_nil, scanResourcesAux_nil]
    | cons c cs =>
      cases fuel' with
      | zero => simp at h'
      | succ f' =>
        cases hm : matchResourceAt (c :: cs) with
        | none =>
          simp only [scanResourcesAux, hm]
          simp only [List.length_cons] at h h'
          exact ih f' cs (Nat.le_of_succ_le_succ h) (Nat.le_of_succ_le_succ h')
        | some r =>
          obtain ⟨t, n, after⟩ := r
          simp only [scanResourcesAux, hm]
          have hlen := matchResourceAt_length hm
          simp only [List.length_cons] at h h' hlen
          rw [ih f' after (by omega) (by omega)]

theorem scanModulesAux_mono :
    ∀ (fuel fuel' : Nat) (s : List Char), s.length ≤ fuel → s.length ≤ fuel' →
      scanModulesAux fuel s = scanModulesAux fuel' s := by
  intro fuel
  induction fuel with
  | zero =>
    intro fuel' s h h'
    have : s = [] := List.length_eq_zero.mp (Nat.le_zero.mp h)
    subst this
    rw [scanModulesAux_nil, scanModulesAux_nil]
  | succ fuel ih =>
    intro fuel' s h h'
    cases s with
    | nil => rw [scanModulesAux_nil, scanModulesAux_nil]
    | cons c cs =>
      cases fuel' with
      | zero => simp at h'
      | succ f' =>
        cases hm : matchModuleAt (c :: cs) with
        | none =>
          simp only [scanModulesAux, hm]
          simp only [List.length_cons] at h h'
          exact ih f' cs (Nat.le_of_succ_le_succ h) (Nat.le_of_succ_le_succ h')
        | some r =>
          obtain ⟨nm, src, after⟩ := r
          simp only [scanModulesAux, hm]
          have hlen := matchModuleAt_length hm
          simp only [List.length_cons] at h h' hlen
          rw [ih f' after (by omega) (by omega)]

theorem scanResources_cons_match {c : Char} {cs t n after : List Char}
    (h : matchResourceAt (c :: cs) = some (t, n, after)) :
    scanResources (c :: cs) = (t, n) :: scanResources after := by
  have hlen := matchResourceAt_length h
  simp only [List.length_cons] at hlen
  simp only [scanResources, List.length_cons, scanResourcesAux, h]
  rw [scanResourcesAux_mono cs.length after.length after (by omega) (Nat.le_refl _)]

theorem scanResources_cons_none {c : Char} {cs : List Char}
    (h : matchResourceAt (c :: cs) = none) :
    scanResources (c :: cs) = scanResources cs := by
  simp only [scanResources, List.length_cons, scanResourcesAux, h]

theorem scanModules_cons_match {c : Char} {cs nm src after : List Char}
    (h : matchModuleAt (c :: cs) = some (nm, src, after)) :
    scanModules (c :: cs) = (nm, src) :: scanModules after := by
  have hlen := matchModuleAt_length h
  simp only [List.length_cons] at hlen
  simp only [scanModules, List.length_cons, scanModulesAux, h]
  rw [scanModulesAux_mono cs.length after.length after (by omega) (Nat.le_refl _)]

theorem scanModules_cons_none {c : Char} {cs : List Char}
    (h : matchModuleAt (c :: cs) = none) :
    scanModules (c :: cs) = scanModules cs := by
  simp only [scanModules, List.length_cons, scanModulesAux, h]

theorem matchResourceAt_lit {s : List Char} (h : ¬ "resource".data <+: s) :
    matchResourceAt s = none := by
  cases hm : matchResourceAt s with
  | none => rfl
  | some v =>
    obtain ⟨s1, r2, s3, r4, s5, r6, s7, r8, s9, h1, -⟩ := matchResourceAt_bind_eq hm
    exact absurd (dropLit_pre_of_some h1) h

theorem matchModuleAt_lit {s : List Char} (h : ¬ "module".data <+: s) :
    matchModuleAt s = none := by
  cases hm : matchModuleAt s with
  | none => rfl
  | some v =>
    obtain ⟨s1, r2, s3, r4, s5, r6, s7, r8, h1, -⟩ := matchModuleAt_bind_eq hm
    exact absurd (dropLit_pre_of_some h1) h

theorem scanResources_eq_nil {s : List Char} (h : ¬ "resource".data <:+: s) :
    scanResources s = [] := by
  induction s with
  | nil => rfl
  | cons c cs ih =>
    have h0 : matchResourceAt (c :: cs) = none :=
      matchResourceAt_lit (fun hp => h (List.IsPrefix.isInfix hp))
    rw [scanResources_cons_none h0]
    exact ih (fun hi => h (List.infix_cons hi))

theorem scanModules_eq_nil {s : List Char} (h : ¬ "module".data <:+: s) :
    scanModules s = [] := by
  induction s with
  | nil => rfl
  | cons c cs ih =>
    have h0 : matchModuleAt (c :: cs) = none :=
      matchModuleAt_lit (fun hp => h (List.IsPrefix.isInfix hp))
    rw [scanModules_cons_none h0]
    exact ih (fun hi => h (List.infix_cons hi))

theorem infix_append_cases {w xs ys : List Char} (h : w <:+: (xs ++ ys)) :
    w <:+: xs ∨ w <:+: ys ∨
      ∃ w1 w2, w1 ++ w2 = w ∧ w1 ≠ [] ∧ w2 ≠ [] ∧ w1 <:+ xs ∧ w2 <+: ys := by
  obtain ⟨s, t, hst⟩ := h
  by_cases hle : s.length + w.length ≤ xs.length
  · left
    have hpre : s ++ w <+: xs ++ ys := ⟨t, by simpa [List.append_assoc] using hst⟩
    have hsw : s ++ w <+: xs :=
      List.prefix_of_prefix_length_le hpre (List.prefix_append xs ys) (by simpa using hle)
    obtain ⟨r, hr⟩ := hsw
    exact ⟨s, r, by simpa [List.append_assoc] using hr⟩
  · have hwt : w ++ t = (xs ++ ys).drop s.length := by
      rw [← hst, List.append_assoc, List.drop_left]
    by_cases hge : xs.length ≤ s.length
    · right; left
      have hdrop : (xs ++ ys).drop s.length = ys.drop (s.length - xs.length) := by
        rw [List.drop_append_eq_append_drop, List.drop_eq_nil_of_le hge, List.nil_append]
      have hw : w <+: ys.drop (s.length - xs.length) := ⟨t, by rw [← hdrop, ← hwt]⟩
      exact List.infix_iff_prefix_suffix.mpr ⟨ys.drop (s.length - xs.length), hw, List.drop_suffix _ ys⟩
    · right; right
      have hlt1 : s.length < xs.length := Nat.lt_of_not_le hge
      have hlt2 : xs.length < s.length + w.length := Nat.lt_of_not_le hle
      have hdrop : (xs ++ ys).drop s.length = xs.drop s.length ++ ys :=
        List.drop_append_of_le_length (Nat.le_of_lt hlt1)
      have hwt2 : w ++ t = xs.drop s.length ++ ys := by rw [hwt, hdrop]
      have hlen1 : (xs.drop s.length).length = xs.length - s.length := List.length_drop ..
      have hw1pre : xs.drop s.length <+: w := by
        have h1 : xs.drop s.length <+: w ++ t := ⟨ys, hwt2.symm⟩
        exact List.prefix_of_prefix_length_le h1 (List.prefix_append w t) (by omega)
      obtain ⟨w2, hw2⟩ := hw1pre
      refine ⟨xs.drop s.length, w2, hw2, ?_, ?_, List.drop_suffix _ xs, ?_⟩
      · intro hnil
        rw [hnil] at hlen1
        simp at hlen1
        omega
      · intro hnil
        subst hnil
        rw [List.append_nil] at hw2
        have : w.length = xs.length - s.length := by rw [← hw2, hlen1]
        omega
      · have : (xs.drop s.length ++ w2) ++ t = xs.drop s.length ++ ys := by rw [hw2, hwt2]
        rw [List.append_assoc] at this
        have h2 := List.append_cancel_left this
        exact ⟨t, h2⟩

theorem not_infix_append_head {w xs ys : List Char} (c : Char)
    (hxs : ¬ w <:+: xs) (hys : ¬ w <:+: ys) (hh : ys.head? = some c) (hc : c ∉ w) :
    ¬ w <:+: (xs ++ ys) := by
  intro h
  rcases infix_append_cases h with h1 | h1 | ⟨w1, w2, hw, hw1, hw2, -, hp⟩
  · exact hxs h1
  · exact hys h1
  · cases ys with
    | nil => simp at hh
    | cons y ys0 =>
      simp only [List.head?_cons, Option.some.injEq] at hh
      cases w2 with
      | nil => exact hw2 rfl
      | cons d w20 =>
        have hd : d = y := (List.cons_prefix_cons.mp hp).1
        apply hc
        rw [← hh, ← hd]
        exact hw ▸ List.mem_append.mpr (Or.inr (List.mem_cons_self d w20))

theorem not_infix_append_last {w xs ys : List Char} (c : Char)
    (hxs : ¬ w <:+: xs) (hys : ¬ w <:+: ys) (hl : xs.getLast? = some c) (hc : c ∉ w) :
    ¬ w <:+: (xs ++ ys) := by
  intro h
  rcases infix_append_cases h with h1 | h1 | ⟨w1, w2, hw, hw1, hw2, hs, -⟩
  · exact hxs h1
  · exact hys h1
  · obtain ⟨u, hu⟩ := hs
    have hlast : w1.getLast? = some c := by
      rw [← hl, ← hu, List.getLast?_append]
      cases hw1' : w1.getLast? with
      | none => exact absurd (List.getLast?_eq_none_iff.mp hw1') hw1
      | some d => rfl
    have hmem : c ∈ w1 := List.mem_of_mem_getLast? (Option.mem_def.mpr hlast)
    exact hc (hw ▸ List.mem_append.mpr (Or.inl hmem))

theorem takeWhile_middle {p : Char → Bool} {xs : List Char} {y : Char} {ys : List Char}
    (h : ∀ c ∈ xs, p c = true) (hy : p y = false) :
    (xs ++ y :: ys).takeWhile p = xs := by
  induction xs with
  | nil => simp [List.takeWhile_cons, hy]
  | cons x xs ih =>
    have hx : p x = true := h x (List.mem_cons_self x xs)
    simp [List.takeWhile_cons, hx, ih (fun c hc => h c (List.mem_cons_of_mem x hc))]

theorem dropWhile_middle {p : Char → Bool} {xs : List Char} {y : Char} {ys : List Char}
    (h : ∀ c ∈ xs, p c = true) (hy : p y = false) :
    (xs ++ y :: ys).dropWhile p = y :: ys := by
  induction xs with
  | nil => simp [List.dropWhile_cons, hy]
  | cons x xs ih =>
    have hx : p x = true := h x (List.mem_cons_self x xs)
    simp [List.dropWhile_cons, hx, ih (fun c hc => h c (List.mem_cons_of_mem x hc))]

theorem run1_middle (p : Char → Bool) (xs : List Char) (y : Char) (ys : List Char)
    (h : ∀ c ∈ xs, p c = true) (hy : p y = false) (hne : xs ≠ []) :
    run1 p (xs ++ y :: ys) = some (xs, y :: ys) := by
  unfold run1
  rw [takeWhile_middle h hy, dropWhile_middle h hy]
  simp [hne]

/-- One space, then a non-space separator: the shape every `\s+` item of the
    two patterns takes in the canonical declaration templates below. -/
theorem run1_space_sep (c : Char) (hc : isPySpace c = false) (X : List Char) :
    run1 isPySpace (' ' :: c :: X) = some ([' '], c :: X) := by
  have := run1_middle isPySpace [' '] c X (by decide) hc (by decide)
  simpa using this

theorem run1_notquote {T : List Char} (hT : T ≠ []) (hTq : '"' ∉ T) (Y : List Char) :
    run1 (fun c => c != '"') (T ++ '"' :: Y) = some (T, '"' :: Y) := by
  refine run1_middle (fun c => c != '"') T '"' Y ?_ (by decide) hT
  intro c hc
  simp only [bne_iff_ne, ne_eq]
  intro he
  exact hTq (he ▸ hc)

theorem chr_self (c : Char) (X : List Char) : chr c (c :: X) = some X := by
  simp [chr]

theorem resourceDecl_eq (T N body : List Char) :
    resourceDecl T N body =
      "resource".data ++ ' ' :: '"' :: (T ++ '"' :: ' ' :: '"' :: (N ++ '"' :: body)) := by
  unfold resourceDecl
  have h1 : "resource \"".data = "resource".data ++ [' ', '"'] := by decide
  have h2 : "\" \"".data = ['"', ' ', '"'] := by decide
  have h3 : "\"".data = ['"'] := by decide
  rw [h1, h2, h3]
  simp

theorem matchResourceAt_decl {T N body : List Char}
    (hT : T ≠ []) (hN : N ≠ []) (hTq : '"' ∉ T) (hNq : '"' ∉ N) :
    matchResourceAt (resourceDecl T N body) = some (T, N, body) := by
  rw [resourceDecl_eq]
  simp only [matchResourceAt, Option.bind_eq_bind, dropLit_self_append, Option.some_bind,
    run1_space_sep '"' (by decide), run1_notquote hT hTq, run1_notquote hN hNq, chr_self,
    Option.pure_def]

theorem scanResources_resourceDecl {T N body : List Char}
    (hT : T ≠ []) (hN : N ≠ []) (hTq : '"' ∉ T) (hNq : '"' ∉ N) :
    scanResources (resourceDecl T N body) = (T, N) :: scanResources body := by
  have hm : matchResourceAt (resourceDecl T N body) = some (T, N, body) :=
    matchResourceAt_decl hT hN hTq hNq
  have hcons : resourceDecl T N body =
      'r' :: ("esource \"".data ++ T ++ "\" \"".data ++ N ++ "\"".data ++ body) := rfl
  rw [hcons] at hm
  rw [hcons]
  exact scanResources_cons_match hm

theorem matchSourceTail_not_lit {t : List Char} (h : ¬ "source".data <+: t) :
    matchSourceTail t = none := by
  cases hm : matchSourceTail t with
  | none => rfl
  | some v =>
    obtain ⟨u1, r2, u3, r4, u5, r6, u7, h1, -⟩ := matchSourceTail_bind_eq hm
    exact absurd (dropLit_pre_of_some h1) h

theorem matchSourceTail_suffix_none {m t : List Char} (h : ¬ "source".data <:+: m)
    (ht : t <:+ m) : matchSourceTail t = none :=
  matchSourceTail_not_lit (fun hp => h (List.infix_iff_prefix_suffix.mpr ⟨t, hp, ht⟩))

theorem bestSourceFrom_none {l : List Char}
    (h : ∀ j, matchSourceTail (l.drop j) = none) :
    ∀ k, bestSourceFrom k l = none := by
  intro k
  induction k with
  | zero => simpa [bestSourceFrom] using h 0
  | succ k ih =>
    simp only [bestSourceFrom]
    rw [h (k + 1)]
    exact ih

theorem bestSourceFrom_unique {l : List Char} {v : List Char × List Char} {j0 : Nat}
    (hj0 : matchSourceTail (l.drop j0) = some v)
    (hafter : ∀ j, j0 < j → matchSourceTail (l.drop j) = none) :
    ∀ k, j0 ≤ k → bestSourceFrom k l = some v := by
  intro k
  induction k with
  | zero =>
    intro hle
    have h0 : j0 = 0 := Nat.le_zero.mp hle
    subst h0
    simpa [bestSourceFrom] using hj0
  | succ k ih =>
    intro hle
    simp only [bestSourceFrom]
    by_cases hk : j0 = k + 1
    · subst hk
      rw [hj0]
    · rw [hafter (k + 1) (by omega)]
      exact ih (by omega)

theorem not_infix_cons_of_head {w : List Char} {c : Char} {ys : List Char}
    (h1 : ¬ w <+: (c :: ys)) (h2 : ¬ w <:+: ys) : ¬ w <:+: (c :: ys) := by
  intro h
  rcases List.infix_cons_iff.mp h with hp | hi
  · exact h1 hp
  · exact h2 hi

theorem moduleDecl_eq (N S : List Char) :
    moduleDecl N S =
      "module".data ++ ' ' :: '"' ::
        (N ++ '"' :: ' ' :: '\x7b' :: (" source = \"".data ++ (S ++ '"' :: " \x7d".data))) := by
  unfold moduleDecl
  have h1 : "module \"".data = "module".data ++ [' ', '"'] := by decide
  have h2 : "\" \x7b source = \"".data = ['"', ' ', '\x7b'] ++ " source = \"".data := by decide
  have h3 : "\" \x7d".data = '"' :: " \x7d".data := by decide
  rw [h1, h2, h3]
  simp

theorem matchSourceTail_at_one {S B : List Char} (hS : S ≠ []) (hSq : '"' ∉ S) :
    matchSourceTail ("source".data ++ (' ' :: '=' :: ' ' :: '"' :: (S ++ '"' :: B)))
      = some (S, B) := by
  simp only [matchSourceTail, Option.bind_eq_bind, dropLit_self_append, Option.some_bind,
    run1_space_sep '=' (by decide), run1_space_sep '"' (by decide), chr_self,
    run1_notquote hS hSq, Option.pure_def]

theorem matchSourceTail_region_zero {S B : List Char} :
    matchSourceTail (" source = \"".data ++ (S ++ '"' :: B)) = none := by
  apply matchSourceTail_not_lit
  intro hp
  have hcons : " source = \"".data ++ (S ++ '"' :: B)
      = ' ' :: ("source = \"".data ++ (S ++ '"' :: B)) := rfl
  rw [hcons] at hp
  have h1 : "source".data = 's' :: "ource".data := rfl
  rw [h1] at hp
  exact absurd (List.cons_prefix_cons.mp hp).1 (by decide)

theorem matchSourceTail_region_ge_two {S B : List Char}
    (hSsrc : ¬ "source".data <:+: S) (hB : ¬ "source".data <:+: ('"' :: B)) :
    ∀ j, 2 ≤ j →
      matchSourceTail ((" source = \"".data ++ (S ++ '"' :: B)).drop j) = none := by
  intro j hj
  have hd2 : (" source = \"".data ++ (S ++ '"' :: B)).drop 2
      = "ource = \"".data ++ (S ++ '"' :: B) := rfl
  have hsuf : (" source = \"".data ++ (S ++ '"' :: B)).drop j
      <:+ (" source = \"".data ++ (S ++ '"' :: B)).drop 2 :=
    List.drop_suffix_drop_left _ hj
  have hnot : ¬ "source".data <:+: ((" source = \"".data ++ (S ++ '"' :: B)).drop 2) := by
    rw [hd2]
    refine not_infix_append_last '"' (by decide) ?_ (by decide) (by decide)
    exact not_infix_append_head '"' hSsrc hB rfl (by decide)
  exact matchSourceTail_suffix_none hnot hsuf

theorem bestSource_region {S B : List Char} (hS : S ≠ []) (hSq : '"' ∉ S)
    (hSsrc : ¬ "source".data <:+: S) (hB : ¬ "source".data <:+: ('"' :: B)) :
    ∀ k, 1 ≤ k →
      bestSourceFrom k (" source = \"".data ++ (S ++ '"' :: B)) = some (S, B) := by
  have hd1 : (" source = \"".data ++ (S ++ '"' :: B)).drop 1
      = "source".data ++ (' ' :: '=' :: ' ' :: '"' :: (S ++ '"' :: B)) := rfl
  have hj0 : matchSourceTail ((" source = \"".data ++ (S ++ '"' :: B)).drop 1)
      = some (S, B) := by
    rw [hd1]
    exact matchSourceTail_at_one hS hSq
  have hafter : ∀ j, 1 < j →
      matchSourceTail ((" source = \"".data ++ (S ++ '"' :: B)).drop j) = none := by
    intro j hjgt
    exact matchSourceTail_region_ge_two hSsrc hB j (by omega)
  exact bestSourceFrom_unique hj0 hafter

theorem matchModuleAt_decl {N S : List Char}
    (hN : N ≠ []) (hNq : '"' ∉ N) (hS : S ≠ []) (hSq : '"' ∉ S)
    (hSsrc : ¬ "source".data <:+: S) :
    matchModuleAt (moduleDecl N S) = some (N, S, " \x7d".data) := by
  rw [moduleDecl_eq]
  simp only [matchModuleAt, Option.bind_eq_bind, dropLit_self_append, Option.some_bind,
    run1_space_sep '"' (by decide), run1_space_sep '\x7b' (by decide), chr_self,
    run1_notquote hN hNq, Option.pure_def]
  have hmax : 1 ≤ ((" source = \"".data ++ (S ++ '"' :: " \x7d".data)).takeWhile
      (fun c => c != '\x7d')).length := by
    have hcons : " source = \"".data ++ (S ++ '"' :: " \x7d".data)
        = ' ' :: ("source = \"".data ++ (S ++ '"' :: " \x7d".data)) := rfl
    rw [hcons, List.takeWhile_cons_of_pos (by decide)]
    simp
  rw [bestSource_region hS hSq hSsrc (by decide) _ hmax]
  simp

theorem scanModules_moduleDecl {N S : List Char}
    (hN : N ≠ []) (hNq : '"' ∉ N) (hS : S ≠ []) (hSq : '"' ∉ S)
    (hSsrc : ¬ "source".data <:+: S) :
    scanModules (moduleDecl N S) = [(N, S)] := by
  have hm : matchModuleAt (moduleDecl N S) = some (N, S, " \x7d".data) :=
    matchModuleAt_decl hN hNq hS hSq hSsrc
  have hcons : moduleDecl N S =
      'm' :: ("odule \"".data ++ N ++ "\" \x7b source = \"".data ++ S ++ "\" \x7d".data) := rfl
  rw [hcons] at hm
  rw [hcons, scanModules_cons_match hm, (by decide : scanModules " \x7d".data = [])]

theorem scanResources_moduleDecl {N S : List Char}
    (hNr : ¬ "resource".data <:+: N) (hSr : ¬ "resource".data <:+: S) :
    scanResources (moduleDecl N S) = [] := by
  apply scanResources_eq_nil
  have hassoc : moduleDecl N S =
      "module \"".data ++ (N ++ ("\" \x7b source = \"".data ++ (S ++ "\" \x7d".data))) := by
    unfold moduleDecl
    simp [List.append_assoc]
  rw [hassoc]
  refine not_infix_append_last '"' (by decide) ?_ (by decide) (by decide)
  refine not_infix_append_head '"' hNr ?_ rfl (by decide)
  refine not_infix_append_last '"' (by decide) ?_ (by decide) (by decide)
  exact not_infix_append_head '"' hSr (by decide) rfl (by decide)

theorem splitOnSlash_ne_nil (s : List Char) : splitOnSlash s ≠ [] := by
  cases s with
  | nil => simp [splitOnSlash]
  | cons c cs =>
    simp only [splitOnSlash]
    cases splitOnSlash cs with
    | nil => simp
    | cons g gs => by_cases h : c = '/' <;> simp [h]

theorem splitOnSlash_no_slash {s : List Char} (h : '/' ∉ s) : splitOnSlash s = [s] := by
  induction s with
  | nil => rfl
  | cons c cs ih =>
    have hc : ¬ c = '/' := fun hh => h (hh ▸ List.mem_cons_self c cs)
    have ihh := ih (fun hm => h (List.mem_cons_of_mem c hm))
    simp only [splitOnSlash, ihh, if_neg hc]

theorem splitOnSlash_append {A rest : List Char} (hA : '/' ∉ A) :
    splitOnSlash (A ++ '/' :: rest) = A :: splitOnSlash rest := by
  induction A with
  | nil =>
    simp only [List.nil_append, splitOnSlash]
    cases hh : splitOnSlash rest with
    | nil => exact absurd hh (splitOnSlash_ne_nil rest)
    | cons g gs => simp
  | cons x A ih =>
    have hx : ¬ x = '/' := fun hh => hA (hh ▸ List.mem_cons_self x A)
    have ihh := ih (fun hm => hA (List.mem_cons_of_mem x hm))
    simp only [List.cons_append, splitOnSlash, List.append_eq]
    rw [ihh]
    simp [hx]

theorem moduleTypeOf_no_slash {s : List Char} (h : '/' ∉ s) : moduleTypeOf s = s := by
  unfold moduleTypeOf
  rw [splitOnSlash_no_slash h]
  simp

theorem moduleTypeOf_short {s : List Char} (h : (splitOnSlash s).length < 2) :
    moduleTypeOf s = s := by
  unfold moduleTypeOf
  rw [if_neg (by omega)]

theorem moduleTypeOf_secondLast {s : List Char} (h : 2 ≤ (splitOnSlash s).length) :
    moduleTypeOf s = (splitOnSlash s).getD ((splitOnSlash s).length - 2) [] := by
  unfold moduleTypeOf
  rw [if_pos h]

theorem moduleTypeOf_three {A B C : List Char} (hA : '/' ∉ A) (hB : '/' ∉ B) (hC : '/' ∉ C) :
    moduleTypeOf (A ++ '/' :: (B ++ '/' :: C)) = B := by
  unfold moduleTypeOf
  rw [splitOnSlash_append hA, splitOnSlash_append hB, splitOnSlash_no_slash hC]
  simp

theorem resourceMalformed_eq (T rest : List Char) :
    resourceMalformed T rest = "resource".data ++ ' ' :: '"' :: (T ++ '"' :: rest) := by
  unfold resourceMalformed
  have h1 : "resource \"".data = "resource".data ++ [' ', '"'] := by decide
  have h3 : "\"".data = ['"'] := by decide
  rw [h1, h3]
  simp

theorem run1_head_neg {p : Char → Bool} {c : Char} (hc : p c = false) (X : List Char) :
    run1 p (c :: X) = none := by
  have hcc : ¬ p c = true := by
    rw [hc]
    simp
  simp [run1, List.takeWhile_cons_of_neg hcc]

theorem matchResourceAt_malformed {T rest : List Char}
    (hT : T ≠ []) (hTq : '"' ∉ T) (hrq : '"' ∉ rest) :
    matchResourceAt (resourceMalformed T rest) = none := by
  rw [resourceMalformed_eq]
  cases hr : run1 isPySpace rest with
  | none =>
    simp only [matchResourceAt, Option.bind_eq_bind, dropLit_self_append, Option.some_bind,
      run1_space_sep '"' (by decide), chr_self, run1_notquote hT hTq, hr, Option.none_bind]
  | some r2 =>
    obtain ⟨w, rest2⟩ := r2
    obtain ⟨hw, hrest2, hwne⟩ := run1_eq_some hr
    have hchr : chr '"' rest2 = none := by
      cases hrest2' : rest2 with
      | nil => rfl
      | cons d ds =>
        have hd : d ∈ rest := by
          have hmem : d ∈ rest.dropWhile isPySpace := by
            rw [← hrest2, hrest2']
            exact List.mem_cons_self d ds
          exact (List.IsSuffix.sublist (List.dropWhile_suffix isPySpace)).subset hmem
        have hne : ¬ d = '"' := fun he => hrq (he ▸ hd)
        simp [chr, hne]
    simp only [matchResourceAt, Option.bind_eq_bind, dropLit_self_append, Option.some_bind,
      run1_space_sep '"' (by decide), chr_self, run1_notquote hT hTq, hr, hchr,
      Option.none_bind]

theorem scanResources_malformed {T rest : List Char}
    (hT : T ≠ []) (hTq : '"' ∉ T) (hrq : '"' ∉ rest)
    (hTr : ¬ "resource".data <:+: T) (hrr : ¬ "resource".data <:+: rest) :
    scanResources (resourceMalformed T rest) = [] := by
  have h0 : matchResourceAt (resourceMalformed T rest) = none :=
    matchResourceAt_malformed hT hTq hrq
  have hcons : resourceMalformed T rest =
      'r' :: ("esource \"".data ++ T ++ "\"".data ++ rest) := rfl
  rw [hcons] at h0
  rw [hcons, scanResources_cons_none h0]
  apply scanResources_eq_nil
  have hassoc : "esource \"".data ++ T ++ "\"".data ++ rest
      = "esource \"".data ++ (T ++ ('"' :: rest)) := by
    have h3 : "\"".data = ['"'] := by decide
    rw [h3]
    simp [List.append_assoc]
  rw [hassoc]
  refine not_infix_append_last '"' (by decide) ?_ (by decide) (by decide)
  refine not_infix_append_head '"' hTr ?_ rfl (by decide)
  refine not_infix_cons_of_head ?_ hrr
  intro hp
  have hlit : "resource".data = 'r' :: "esource".data := rfl
  rw [hlit] at hp
  exact absurd (List.cons_prefix_cons.mp hp).1 (by decide)

theorem scanModules_malformed {T rest : List Char}
    (hTm : ¬ "module".data <:+: T) (hrm : ¬ "module".data <:+: rest) :
    scanModules (resourceMalformed T rest) = [] := by
  apply scanModules_eq_nil
  have hassoc : resourceMalformed T rest = "resource \"".data ++ (T ++ ('"' :: rest)) := by
    unfold resourceMalformed
    have h3 : "\"".data = ['"'] := by decide
    rw [h3]
    simp [List.append_assoc]
  rw [hassoc]
  refine not_infix_append_last '"' (by decide) ?_ (by decide) (by decide)
  refine not_infix_append_head '"' hTm ?_ rfl (by decide)
  refine not_infix_cons_of_head ?_ hrm
  intro hp
  have hlit : "module".data = 'm' :: "odule".data := rfl
  rw [hlit] at hp
  exact absurd (List.cons_prefix_cons.mp hp).1 (by decide)

theorem moduleDeclNoWs_eq (N S : List Char) :
    moduleDeclNoWs N S =
      "module".data ++ ' ' :: '"' ::
        (N ++ '"' :: ' ' :: '\x7b' :: (" source=\"".data ++ (S ++ '"' :: " \x7d".data))) := by
  unfold moduleDeclNoWs
  have h1 : "module \"".data = "module".data ++ [' ', '"'] := by decide
  have h2 : "\" \x7b source=\"".data = ['"', ' ', '\x7b'] ++ " source=\"".data := by decide
  have h3 : "\" \x7d".data = '"' :: " \x7d".data := by decide
  rw [h1, h2, h3]
  simp

theorem matchSourceTail_head_not_s {c : Char} {X : List Char} (hc : ¬ c = 's') :
    matchSourceTail (c :: X) = none := by
  apply matchSourceTail_not_lit
  intro hp
  have hlit : "source".data = 's' :: "ource".data := rfl
  rw [hlit] at hp
  exact hc ((List.cons_prefix_cons.mp hp).1.symm)

theorem matchModuleAt_noWs {N S : List Char}
    (hN : N ≠ []) (hNq : '"' ∉ N) (hSsrc : ¬ "source".data <:+: S) :
    matchModuleAt (moduleDeclNoWs N S) = none := by
  rw [moduleDeclNoWs_eq]
  have hbest : ∀ k,
      bestSourceFrom k (" source=\"".data ++ (S ++ '"' :: " \x7d".data)) = none := by
    apply bestSourceFrom_none
    intro j
    cases j with
    | zero =>
      have hcons : (" source=\"".data ++ (S ++ '"' :: " \x7d".data)).drop 0
          = ' ' :: ("source=\"".data ++ (S ++ '"' :: " \x7d".data)) := rfl
      rw [hcons]
      exact matchSourceTail_head_not_s (by decide)
    | succ j =>
      cases j with
      | zero =>
        have hd1 : (" source=\"".data ++ (S ++ '"' :: " \x7d".data)).drop 1
            = "source".data ++ ('=' :: '"' :: (S ++ '"' :: " \x7d".data)) := rfl
        rw [hd1]
        simp only [matchSourceTail, Option.bind_eq_bind, dropLit_self_append, Option.some_bind,
          run1_head_neg (by decide : isPySpace '=' = false), Option.none_bind]
      | succ j =>
        have hd2 : (" source=\"".data ++ (S ++ '"' :: " \x7d".data)).drop 2
            = "ource=\"".data ++ (S ++ '"' :: " \x7d".data) := rfl
        have hsuf : (" source=\"".data ++ (S ++ '"' :: " \x7d".data)).drop (j + 2)
            <:+ (" source=\"".data ++ (S ++ '"' :: " \x7d".data)).drop 2 :=
          List.drop_suffix_drop_left _ (by omega)
        have hnot : ¬ "source".data <:+:
            ((" source=\"".data ++ (S ++ '"' :: " \x7d".data)).drop 2) := by
          rw [hd2]
          refine not_infix_append_last '"' (by decide) ?_ (by decide) (by decide)
          exact not_infix_append_head '"' hSsrc (by decide) rfl (by decide)
        exact matchSourceTail_suffix_none hnot hsuf
  simp only [matchModuleAt, Option.bind_eq_bind, dropLit_self_append, Option.some_bind,
    run1_space_sep '"' (by decide), run1_space_sep '\x7b' (by decide), chr_self,
    run1_notquote hN hNq, hbest, Option.none_bind]

theorem scanModules_noWs {N S : List Char}
    (hN : N ≠ []) (hNq : '"' ∉ N) (hSsrc : ¬ "source".data <:+: S)
    (hNm : ¬ "module".data <:+: N) (hSm : ¬ "module".data <:+: S) :
    scanModules (moduleDeclNoWs N S) = [] := by
  have h0 : matchModuleAt (moduleDeclNoWs N S) = none := matchModuleAt_noWs hN hNq hSsrc
  have hcons : moduleDeclNoWs N S =
      'm' :: ("odule \"".data ++ N ++ "\" \x7b source=\"".data ++ S ++ "\" \x7d".data) := rfl
  rw [hcons] at h0
  rw [hcons, scanModules_cons_none h0]
  apply scanModules_eq_nil
  have hassoc : "odule \"".data ++ N ++ "\" \x7b source=\"".data ++ S ++ "\" \x7d".data
      = "odule \"".data ++ (N ++ ("\" \x7b source=\"".data ++ (S ++ "\" \x7d".data))) := by
    simp [List.append_assoc]
  rw [hassoc]
  refine not_infix_append_last '"' (by decide) ?_ (by decide) (by decide)
  refine not_infix_append_head '"' hNm ?_ rfl (by decide)
  refine not_infix_append_last '"' (by decide) ?_ (by decide) (by decide)
  exact not_infix_append_head '"' hSm (by decide) rfl (by decide)

/-- C1: module-source normalization.  The raw source string is split on `/`;
    with at least two components the record's `type_name` is the
    second-to-last component, otherwise it is the raw source unchanged.  In
    particular `module "N" \x7b source = "A/B/C" \x7d` yields exactly one
    record with `type_name = B` and `module_source = "A/B/C"`, and a source
    with no slash normalizes to itself. -/
theorem C1_module_source_normalization (p : String) (N A B C : List Char)
    (hN : N ≠ []) (hNq : '"' ∉ N)
    (hAq : '"' ∉ A) (hBq : '"' ∉ B) (hCq : '"' ∉ C)
    (hAs : '/' ∉ A) (hBs : '/' ∉ B) (hCs : '/' ∉ C)
    (hNr : ¬ "resource".data <:+: N)
    (hSr : ¬ "resource".data <:+: (A ++ '/' :: (B ++ '/' :: C)))
    (hSsrc : ¬ "source".data <:+: (A ++ '/' :: (B ++ '/' :: C))) :
    parse_terraform_file p (some (String.mk (moduleDecl N (A ++ '/' :: (B ++ '/' :: C)))))
      = [{ resource_type := String.mk B, resource_name := String.mk N,
           resource_id := "module." ++ String.mk N, file_path := p,
           is_module := true,
           module_source := some (String.mk (A ++ '/' :: (B ++ '/' :: C))) }]
    ∧ (∀ s : List Char, '/' ∉ s → moduleTypeOf s = s)
    ∧ (∀ s : List Char, (splitOnSlash s).length < 2 → moduleTypeOf s = s)
    ∧ (∀ s : List Char, 2 ≤ (splitOnSlash s).length →
        moduleTypeOf s = (splitOnSlash s).getD ((splitOnSlash s).length - 2) []) := by
  refine ⟨?_, fun s hs => moduleTypeOf_no_slash hs, fun s hs => moduleTypeOf_short hs,
    fun s hs => moduleTypeOf_secondLast hs⟩
  have hSne : (A ++ '/' :: (B ++ '/' :: C)) ≠ [] := by simp
  have hSq : '"' ∉ (A ++ '/' :: (B ++ '/' :: C)) := by
    intro hm
    rcases List.mem_append.mp hm with h | h
    · exact hAq h
    · rcases List.mem_cons.mp h with h | h
      · exact absurd h (by decide)
      · rcases List.mem_append.mp h with h | h
        · exact hBq h
        · rcases List.mem_cons.mp h with h | h
          · exact absurd h (by decide)
          · exact hCq h
  simp only [parse_terraform_file]
  rw [scanResources_moduleDecl hNr hSr, scanModules_moduleDecl hN hNq hSne hSq hSsrc]
  simp [mkModuleRecord, moduleTypeOf_three hAs hBs hCs]

/-- Witness for C1 at `module "vpc" \x7b source = "terraform-aws-modules/vpc/aws" \x7d`. -/
theorem C1_module_source_normalization_witness :
    ("vpc".data ≠ [] ∧
      ¬ "source".data <:+:
        ("terraform-aws-modules".data ++ '/' :: ("vpc".data ++ '/' :: "aws".data)))
    ∧ parse_terraform_file "main.tf"
        (some (String.mk (moduleDecl "vpc".data
          ("terraform-aws-modules".data ++ '/' :: ("vpc".data ++ '/' :: "aws".data)))))
      = [{ resource_type := String.mk "vpc".data, resource_name := String.mk "vpc".data,
           resource_id := "module." ++ String.mk "vpc".data, file_path := "main.tf",
           is_module := true,
           module_source := some (String.mk ("terraform-aws-modules".data ++ '/' ::
             ("vpc".data ++ '/' :: "aws".data))) }] :=
  ⟨⟨by decide, by decide⟩,
    (C1_module_source_normalization "main.tf" "vpc".data "terraform-aws-modules".data
      "vpc".data "aws".data (by decide) (by decide) (by decide) (by decide) (by decide)
      (by decide) (by decide) (by decide) (by decide) (by decide) (by decide)).1⟩

/-- C2: the spec requires the search for a module's `source` to be bounded
    by full brace matching, so that a nested inner block's `source` line is
    never attributed to the outer module.  The code instead uses `[^\x7d]*`,
    bounding the search at the first close-brace character and taking the
    last `source` assignment that parses before it: on a module block whose
    nested inner block carries `source = "a/b/c"` before the outer block's
    own `source = "x/y/z"`, the outer module's record carries the nested
    `a/b/c`, contradicting the claim. -/
theorem C2_first_close_brace_bounding :
    parse_terraform_file "main.tf"
        (some ("module \"m\" \x7b\n  inner \x7b\n    source = \"a/b/c\"\n  \x7d\n"
          ++ "  source = \"x/y/z\"\n\x7d"))
      = [{ resource_type := "b", resource_name := "m", resource_id := "module.m",
           file_path := "main.tf", is_module := true, module_source := some "a/b/c" }]
    ∧ (some "a/b/c" : Option String) ≠ some "x/y/z" :=
  ⟨by decide, by decide⟩

/-- C3: every well-formed declaration `resource "T" "N"` produces exactly one
    RESOURCE record with `type_name = T`, `instance_name = N` and
    `identifier = "T.N"`; whatever follows the two quoted tokens (the block
    body) only contributes its own further matches, never alters this one. -/
theorem C3_resource_declaration (p : String) (T N body : List Char)
    (hT : T ≠ []) (hN : N ≠ []) (hTq : '"' ∉ T) (hNq : '"' ∉ N) :
    parse_terraform_file p (some (String.mk (resourceDecl T N body)))
      = { resource_type := String.mk T, resource_name := String.mk N,
          resource_id := String.mk T ++ "." ++ String.mk N, file_path := p,
          is_module := false, module_source := none }
        :: ((scanResources body).map (mkResourceRecord p)
            ++ (scanModules (resourceDecl T N body)).map (mkModuleRecord p)) := by
  simp only [parse_terraform_file]
  rw [scanResources_resourceDecl hT hN hTq hNq]
  simp [mkResourceRecord]

/-- Witness for C3 at `resource "aws_s3_bucket" "logs" \x7b\x7d`. -/
theorem C3_resource_declaration_witness :
    ("aws_s3_bucket".data ≠ [] ∧ "logs".data ≠ [] ∧ '"' ∉ "aws_s3_bucket".data
      ∧ '"' ∉ "logs".data)
    ∧ parse_terraform_file "f1.tf"
        (some (String.mk (resourceDecl "aws_s3_bucket".data "logs".data " \x7b\x7d".data)))
      = { resource_type := String.mk "aws_s3_bucket".data,
          resource_name := String.mk "logs".data,
          resource_id := String.mk "aws_s3_bucket".data ++ "." ++ String.mk "logs".data,
          file_path := "f1.tf", is_module := false, module_source := none }
        :: ((scanResources " \x7b\x7d".data).map (mkResourceRecord "f1.tf")
            ++ (scanModules (resourceDecl "aws_s3_bucket".data "logs".data
                " \x7b\x7d".data)).map (mkModuleRecord "f1.tf")) :=
  ⟨⟨by decide, by decide, by decide, by decide⟩,
    C3_resource_declaration "f1.tf" "aws_s3_bucket".data "logs".data " \x7b\x7d".data
      (by decide) (by decide) (by decide) (by decide)⟩

/-- C5: an unreadable file (content `none`) contributes zero records and does
    not abort the scan: files before and after it are aggregated exactly as
    if it were absent, and the aggregate is a total function (no fatal
    error condition exists in the embedding). -/
theorem C5_per_file_failure_isolation (pre post : List (String × Option String))
    (p : String) :
    all_resources (pre ++ (p, none) :: post) = all_resources pre ++ all_resources post
    ∧ parse_terraform_file p none = [] := by
  constructor
  · simp [all_resources, parse_terraform_file]
  · rfl

/-- C9: the per-file extraction of this embedding is a pure function of the
    path and the file content, so running it twice on identical input
    yields the identical record list, in the same order. -/
theorem C9_extraction_deterministic (file_path : String) (content : Option String) :
    parse_terraform_file file_path content = parse_terraform_file file_path content := rfl

/-- C6: every record produced by extraction has its `identifier` derived
    deterministically from its kind and name fields:
    `"{type_name}.{instance_name}"` for resources and
    `"module.{instance_name}"` for modules. -/
theorem C6_identifier_invariant (p : String) (content : Option String)
    (r : TerraformResource) (hr : r ∈ parse_terraform_file p content) :
    (r.is_module = false → r.resource_id = r.resource_type ++ "." ++ r.resource_name)
    ∧ (r.is_module = true → r.resource_id = "module." ++ r.resource_name) := by
  cases content with
  | none => simp [parse_terraform_file] at hr
  | some text =>
    simp only [parse_terraform_file] at hr
    rcases List.mem_append.mp hr with hm | hm
    · obtain ⟨g, hg, hrec⟩ := List.mem_map.mp hm
      subst hrec
      exact ⟨fun _ => rfl, fun hc => by simp [mkResourceRecord] at hc⟩
    · obtain ⟨g, hg, hrec⟩ := List.mem_map.mp hm
      subst hrec
      exact ⟨fun hc => by simp [mkModuleRecord] at hc, fun _ => rfl⟩

/-- Witness for C6 at the record extracted from `resource "a" "b" \x7b\x7d`. -/
theorem C6_identifier_invariant_witness :
    ({ resource_type := "a", resource_name := "b", resource_id := "a.b",
       file_path := "f.tf", is_module := false,
       module_source := none } : TerraformResource)
      ∈ parse_terraform_file "f.tf" (some "resource \"a\" \"b\" \x7b\x7d")
    ∧ ((({ resource_type := "a", resource_name := "b", resource_id := "a.b",
           file_path := "f.tf", is_module := false,
           module_source := none } : TerraformResource).is_module = false →
        ({ resource_type := "a", resource_name := "b", resource_id := "a.b",
           file_path := "f.tf", is_module := false,
           module_source := none } : TerraformResource).resource_id = "a" ++ "." ++ "b")
      ∧ (({ resource_type := "a", resource_name := "b", resource_id := "a.b",
            file_path := "f.tf", is_module := false,
            module_source := none } : TerraformResource).is_module = true →
        ({ resource_type := "a", resource_name := "b", resource_id := "a.b",
           file_path := "f.tf", is_module := false,
           module_source := none } : TerraformResource).resource_id = "module." ++ "b")) :=
  ⟨by decide,
    C6_identifier_invariant "f.tf" (some "resource \"a\" \"b\" \x7b\x7d") _ (by decide)⟩

/-- C7: the keyword `resource` followed by one quoted token with the second
    quoted token missing does not match: the occurrence yields no record at
    all (and the total extraction function cannot raise). -/
theorem C7_malformed_resource_skipped (p : String) (T rest : List Char)
    (hT : T ≠ []) (hTq : '"' ∉ T) (hrq : '"' ∉ rest)
    (hTr : ¬ "resource".data <:+: T) (hrr : ¬ "resource".data <:+: rest)
    (hTm : ¬ "module".data <:+: T) (hrm : ¬ "module".data <:+: rest) :
    matchResourceAt (resourceMalformed T rest) = none
    ∧ parse_terraform_file p (some (String.mk (resourceMalformed T rest))) = [] := by
  refine ⟨matchResourceAt_malformed hT hTq hrq, ?_⟩
  simp only [parse_terraform_file]
  rw [scanResources_malformed hT hTq hrq hTr hrr, scanModules_malformed hTm hrm]
  simp

/-- Witness for C7 at `resource "only_type" \x7b name = var.x \x7d`. -/
theorem C7_malformed_resource_skipped_witness :
    ("only_type".data ≠ [] ∧ '"' ∉ " \x7b name = var.x \x7d".data)
    ∧ matchResourceAt (resourceMalformed "only_type".data " \x7b name = var.x \x7d".data)
        = none
    ∧ parse_terraform_file "f.tf"
        (some (String.mk (resourceMalformed "only_type".data
          " \x7b name = var.x \x7d".data))) = [] :=
  ⟨⟨by decide, by decide⟩,
    C7_malformed_resource_skipped "f.tf" "only_type".data " \x7b name = var.x \x7d".data
      (by decide) (by decide) (by decide) (by decide) (by decide) (by decide) (by decide)⟩

/-- C8: a file text with no occurrence of either pattern yields the empty
    record list (not an error), and a directory with no matching files
    yields the empty aggregate: no records, no type keys, every count 0. -/
theorem C8_empty_inputs (p : String) (text : String)
    (hres : ¬ "resource".data <:+: text.data) (hmod : ¬ "module".data <:+: text.data) :
    parse_terraform_file p (some text) = []
    ∧ all_resources [] = []
    ∧ resource_types_keys [] = []
    ∧ unique_resource_types [] = []
    ∧ (∀ t, count_by_type [] t = 0) := by
  refine ⟨?_, rfl, rfl, rfl, fun t => rfl⟩
  simp only [parse_terraform_file]
  rw [scanResources_eq_nil hres, scanModules_eq_nil hmod]
  simp

/-- Witness for C8 at the declaration-free file text `x = 1`. -/
theorem C8_empty_inputs_witness :
    (¬ "resource".data <:+: "x = 1".data ∧ ¬ "module".data <:+: "x = 1".data)
    ∧ parse_terraform_file "f.tf" (some "x = 1") = []
    ∧ all_resources [] = []
    ∧ resource_types_keys [] = []
    ∧ unique_resource_types [] = []
    ∧ (∀ t, count_by_type [] t = 0) :=
  ⟨⟨by decide, by decide⟩, C8_empty_inputs "f.tf" "x = 1" (by decide) (by decide)⟩

/-- C10: the module pattern requires at least one whitespace character
    between `source` and `=` and between `=` and the opening quote
    (`source\s+=\s+"`), so a module block written `source="S"` yields no
    MODULE record at all, although the declaration is otherwise
    well-formed. -/
theorem C10_source_requires_whitespace (p : String) (N S : List Char)
    (hN : N ≠ []) (hNq : '"' ∉ N) (hSsrc : ¬ "source".data <:+: S)
    (hNm : ¬ "module".data <:+: N) (hSm : ¬ "module".data <:+: S) :
    scanModules (moduleDeclNoWs N S) = []
    ∧ (parse_terraform_file p (some (String.mk (moduleDeclNoWs N S)))).filter
        (fun r => r.is_module) = [] := by
  have hs := scanModules_noWs hN hNq hSsrc hNm hSm
  refine ⟨hs, ?_⟩
  simp only [parse_terraform_file]
  rw [hs]
  simp [mkResourceRecord, List.filter_map, Function.comp]

/-- Witness for C10 at `module "n" \x7b source="a/b/c" \x7d`. -/
theorem C10_source_requires_whitespace_witness :
    ("n".data ≠ [] ∧ ¬ "source".data <:+: "a/b/c".data)
    ∧ scanModules (moduleDeclNoWs "n".data "a/b/c".data) = []
    ∧ (parse_terraform_file "f.tf"
        (some (String.mk (moduleDeclNoWs "n".data "a/b/c".data)))).filter
        (fun r => r.is_module) = [] :=
  ⟨⟨by decide, by decide⟩,
    C10_source_requires_whitespace "f.tf" "n".data "a/b/c".data
      (by decide) (by decide) (by decide) (by decide) (by decide)⟩

/-- C4: end-to-end aggregation over the two-file example project
    (`resource "aws_s3_bucket" "logs"` and `module "vpc"` with source
    `terraform-aws-modules/vpc/aws` in the first file, `resource
    "aws_s3_bucket" "data"` in the second): 3 records total,
    `count_by_type` maps `aws_s3_bucket` to 2 and `vpc` to 1, and the
    deduplicated type-name set is exactly those two names. -/
theorem C4_end_to_end_aggregation :
    (all_resources exampleProjectFiles).length = 3
    ∧ count_by_type exampleProjectFiles "aws_s3_bucket" = 2
    ∧ count_by_type exampleProjectFiles "vpc" = 1
    ∧ resource_types_keys exampleProjectFiles = ["aws_s3_bucket", "vpc"]
    ∧ unique_resource_types exampleProjectFiles = ["aws_s3_bucket", "vpc"] :=
  ⟨by decide, by decide, by decide, by decide, by decide⟩

end TfParse
